import Mathlib

/-!
Shallow embedding of the adaptive question-generation and mastery-tracking
core of the ear-trainer application, together with proofs about it.

JavaScript numbers are modelled as exact rationals; strings as Lean strings;
string-union types as inductives whose constructor names mirror the source
strings.  Functions that consume Math.random() are modelled with an explicit
tape of draws: an index draw Math.floor(Math.random()*n) is modelled as an
arbitrary natural taken mod n (every value in [0, n) is reachable), and a
probability test Math.random() < p as an arbitrary Bool.
-/

namespace EarTrainer

/-- Math.round: round half toward positive infinity, as JavaScript does. -/
def jsRound (q : ℚ) : ℤ := ⌊q + 1/2⌋

/-- The remainder q % 1 of JavaScript for the nonnegative beat values that
occur in the timing builder (for q ≥ 0 this is the fractional part). -/
def jsMod1 (q : ℚ) : ℚ := q - (⌊q⌋ : ℚ)

/-- String.prototype.startsWith, on the character lists of the strings. -/
def strStartsWith (s pat : String) : Bool := pat.data.isPrefixOf s.data

/-- Helper for strIncludes: does pat occur as a contiguous block of hay. -/
def hasSubAux (pat : List Char) : List Char → Bool
  | [] => pat.isEmpty
  | c :: rest => pat.isPrefixOf (c :: rest) || hasSubAux pat rest

/-- String.prototype.includes. -/
def strIncludes (s pat : String) : Bool := hasSubAux pat.data s.data

/-- String.prototype.trim: strip whitespace from both ends. -/
def jsTrim (s : String) : String :=
  String.mk (((s.data.dropWhile Char.isWhitespace).reverse.dropWhile Char.isWhitespace).reverse)

/-- clamp01 from src/store/progressStore.ts. -/
def clamp01 (value : ℚ) : ℚ := max 0 (min 1 value)

/-- DAY_MS from src/store/progressStore.ts. -/
def DAY_MS : ℚ := 1000 * 60 * 60 * 24

/-- TrainingMode from src/training/types.ts. -/
inductive TrainingMode where
  | scale_degree
  | functional_interval
  | functional_harmony
  | timing_grid
  | phrase_recall
deriving DecidableEq, Fintype

/-- TonalMode from src/training/types.ts. -/
inductive TonalMode where
  | major
  | natural_minor
  | harmonic_minor
  | melodic_minor
  | modal
deriving DecidableEq, Fintype

/-- DEGREE_LABELS from src/training/theory.ts. -/
def DEGREE_LABELS : List String := ["1", "2", "3", "4", "5", "6", "7"]

/-- DEGREE_SEMITONES_BY_MODE from src/training/theory.ts. -/
def DEGREE_SEMITONES_BY_MODE : TonalMode → List ℕ
  | .major => [0, 2, 4, 5, 7, 9, 11]
  | .natural_minor => [0, 2, 3, 5, 7, 8, 10]
  | .harmonic_minor => [0, 2, 3, 5, 7, 8, 11]
  | .melodic_minor => [0, 2, 3, 5, 7, 9, 11]
  | .modal => [0, 2, 4, 5, 7, 9, 10]

/-- degreeSemitone from src/training/theory.ts.  JavaScript indexOf returns
-1 when the label is absent; Lean List.indexOf returns the length, so the
missing-label branch is the test idx ≥ length. -/
def degreeSemitone (degreeLabel : String) (tonalMode : TonalMode) : ℕ :=
  if degreeLabel = "b3" then 3
  else if degreeLabel = "#4" then 6
  else if degreeLabel = "b7" then 10
  else
    let idx := DEGREE_LABELS.indexOf degreeLabel
    if DEGREE_LABELS.length ≤ idx then 0
    else (DEGREE_SEMITONES_BY_MODE tonalMode).getD idx 0

/-- INTERVAL_NAME_BY_SEMITONE from src/training/theory.ts: the only keys
present are 1, 2, 3, 4, 5, 7 and 12. -/
def INTERVAL_NAME_BY_SEMITONE : List (ℕ × String) :=
  [(1, "m2"), (2, "M2"), (3, "m3"), (4, "M3"), (5, "P4"), (7, "P5"), (12, "P8")]

/-- intervalNameFromSemitones from src/training/theory.ts. -/
def intervalNameFromSemitones (semitones : ℕ) : String :=
  (List.lookup semitones INTERVAL_NAME_BY_SEMITONE).getD (toString semitones ++ " semitones")

/-- movementLabel from src/training/theory.ts. -/
def movementLabel (fromDegree toDegree : String) : String :=
  fromDegree ++ "->" ++ toDegree

lemma lookup_semitone_none (s : ℕ) (h : s ∉ [1, 2, 3, 4, 5, 7, 12]) :
    List.lookup s INTERVAL_NAME_BY_SEMITONE = none := by
  simp only [List.mem_cons, List.not_mem_nil, or_false, not_or] at h
  obtain ⟨h1, h2, h3, h4, h5, h7, h12⟩ := h
  simp [INTERVAL_NAME_BY_SEMITONE, List.lookup,
    beq_eq_false_iff_ne.mpr h1, beq_eq_false_iff_ne.mpr h2,
    beq_eq_false_iff_ne.mpr h3, beq_eq_false_iff_ne.mpr h4,
    beq_eq_false_iff_ne.mpr h5, beq_eq_false_iff_ne.mpr h7,
    beq_eq_false_iff_ne.mpr h12]

/-- Claim C8, counterexample: 6 lies in 1..12, yet intervalNameFromSemitones 6
is exactly the raw "6 semitones" string, because the lookup table has no entry
for the tritone (nor for 8, 9, 10, 11). -/
theorem theory_c8_counterexample :
    1 ≤ 6 ∧ 6 ≤ 12 ∧ intervalNameFromSemitones 6 = toString 6 ++ " semitones" := by
  refine ⟨by decide, by decide, ?_⟩
  decide

/-- Claim C8, amended: intervalNameFromSemitones s differs from the raw
"(s) semitones" string exactly when s is one of the tabulated semitone counts
1, 2, 3, 4, 5, 7, 12; every other count (including 6, 8, 9, 10, 11, which
do lie in 1..12) is reported as the raw semitone count. -/
theorem theory_c8_amended (s : ℕ) :
    intervalNameFromSemitones s ≠ toString s ++ " semitones" ↔
      s ∈ [1, 2, 3, 4, 5, 7, 12] := by
  constructor
  · intro hne
    by_contra hmem
    exact hne (by simp [intervalNameFromSemitones, lookup_semitone_none s hmem])
  · intro hmem
    fin_cases hmem <;> decide

/-- inferModeFromKey from src/store/progressStore.ts. -/
def inferModeFromKey (key : String) : TrainingMode :=
  if strStartsWith key "meter:" || strStartsWith key "subdivision:"
      || strStartsWith key "syncopation:" || strStartsWith key "tap:" then
    .timing_grid
  else if strStartsWith key "phrase:" then .phrase_recall
  else if strStartsWith key "movement:" then .functional_interval
  else if strStartsWith key "quality:" || strStartsWith key "function:"
      || strStartsWith key "progression:" || strStartsWith key "cadence:"
      || strStartsWith key "changed_position:" then
    .functional_harmony
  else .scale_degree

/-- AdaptiveBucket from src/store/progressStore.ts; every JavaScript number
field is an exact rational. -/
structure AdaptiveBucket where
  id : String
  key : String
  context : String
  mode : TrainingMode
  attempts : ℚ
  correct : ℚ
  wrong : ℚ
  lastSeen : ℚ
  rollingAccuracy : ℚ
  avgResponseMs : ℚ
  mastery : ℚ
  intervalDays : ℚ
  dueAt : ℚ
  lastOutcomeCorrect : Bool
deriving DecidableEq

/-- The bucket literal that recordAttempt builds when s.adaptive[id] is
absent (src/store/progressStore.ts lines 307-322). -/
def freshBucket (id key context : String) : AdaptiveBucket where
  id := id
  key := key
  context := context
  mode := inferModeFromKey key
  attempts := 0
  correct := 0
  wrong := 0
  lastSeen := 0
  rollingAccuracy := 0
  avgResponseMs := 0
  mastery := 0
  intervalDays := 0
  dueAt := 0
  lastOutcomeCorrect := true

/-- REVIEW_INTERVALS_DAYS from src/store/progressStore.ts. -/
def REVIEW_INTERVALS_DAYS : List ℚ := [1, 3, 7, 14, 30]

/-- nextIntervalDays from src/store/progressStore.ts: first table entry
strictly above the current interval, else the last table entry. -/
def nextIntervalDays (currentInterval : ℚ) : ℚ :=
  match REVIEW_INTERVALS_DAYS.find? (fun value => currentInterval < value) with
  | some value => value
  | none => REVIEW_INTERVALS_DAYS.getLastD 0

/-- The body of the per-adaptive-key loop of recordAttempt
(src/store/progressStore.ts lines 323-348): counter updates, EWMA updates,
mastery recomputation and the spaced-repetition schedule update, applied to
one bucket for one outcome.  recordAttempt applies this to the stored (or
fresh) bucket of every id `context::key` named by the attempt. -/
def bucketStep (b : AdaptiveBucket) (isCorrect : Bool) (responseMs now : ℚ) : AdaptiveBucket :=
  let attempts := b.attempts + 1
  let correct := if isCorrect then b.correct + 1 else b.correct
  let wrong := if isCorrect then b.wrong else b.wrong + 1
  let hit : ℚ := if isCorrect then 1 else 0
  let rollingAccuracy :=
    if attempts = 1 then hit else (35/100) * hit + (1 - 35/100) * b.rollingAccuracy
  let avgResponseMs :=
    if attempts = 1 then responseMs
    else (35/100) * responseMs + (1 - 35/100) * b.avgResponseMs
  let rawAcc := if 0 < attempts then correct / attempts else 0
  let confidence := min 1 (attempts / 10)
  let mastery := clamp01 ((rollingAccuracy * (7/10) + rawAcc * (3/10)) * confidence)
  let schedule : ℚ × ℚ :=
    if isCorrect = false then (0, now)
    else if 82/100 ≤ mastery then
      let iv := nextIntervalDays b.intervalDays
      (iv, now + iv * DAY_MS)
    else (0, now)
  { id := b.id, key := b.key, context := b.context, mode := b.mode,
    attempts := attempts, correct := correct, wrong := wrong,
    lastSeen := now, rollingAccuracy := rollingAccuracy,
    avgResponseMs := avgResponseMs, mastery := mastery,
    intervalDays := schedule.1, dueAt := schedule.2,
    lastOutcomeCorrect := isCorrect }

/-- Buckets reachable from a lazily created fresh bucket by any sequence of
recordAttempt outcomes touching its key. -/
inductive ReachableBucket : AdaptiveBucket → Prop where
  | fresh (id key context : String) : ReachableBucket (freshBucket id key context)
  | step (b : AdaptiveBucket) (isCorrect : Bool) (responseMs now : ℚ) :
      ReachableBucket b → ReachableBucket (bucketStep b isCorrect responseMs now)

/-- Raw accuracy correct/attempts used in the mastery blend (0 when there is
no attempt yet). -/
def bucketRawAcc (b : AdaptiveBucket) : ℚ :=
  if 0 < b.attempts then b.correct / b.attempts else 0

lemma nextIntervalDays_spec (current : ℚ) (h : current < 30) :
    nextIntervalDays current ∈ REVIEW_INTERVALS_DAYS ∧ current < nextIntervalDays current ∧
      ∀ v ∈ REVIEW_INTERVALS_DAYS, current < v → nextIntervalDays current ≤ v := by
  rcases lt_or_le current 1 with h1 | h1
  · have hv : nextIntervalDays current = 1 := by
      simp [nextIntervalDays, REVIEW_INTERVALS_DAYS, List.find?, h1]
    refine ⟨by rw [hv]; norm_num [REVIEW_INTERVALS_DAYS], by rw [hv]; exact h1, ?_⟩
    intro v hv' hcv
    rw [hv]
    fin_cases hv' <;> norm_num
  · rcases lt_or_le current 3 with h3 | h3
    · have hv : nextIntervalDays current = 3 := by
        simp [nextIntervalDays, REVIEW_INTERVALS_DAYS, List.find?, not_lt.mpr h1, h3]
      refine ⟨by rw [hv]; norm_num [REVIEW_INTERVALS_DAYS], by rw [hv]; exact h3, ?_⟩
      intro v hv' hcv
      rw [hv]
      fin_cases hv' <;> linarith
    · rcases lt_or_le current 7 with h7 | h7
      · have hv : nextIntervalDays current = 7 := by
          simp [nextIntervalDays, REVIEW_INTERVALS_DAYS, List.find?,
            not_lt.mpr h1, not_lt.mpr h3, h7]
        refine ⟨by rw [hv]; norm_num [REVIEW_INTERVALS_DAYS], by rw [hv]; exact h7, ?_⟩
        intro v hv' hcv
        rw [hv]
        fin_cases hv' <;> linarith
      · rcases lt_or_le current 14 with h14 | h14
        · have hv : nextIntervalDays current = 14 := by
            simp [nextIntervalDays, REVIEW_INTERVALS_DAYS, List.find?,
              not_lt.mpr h1, not_lt.mpr h3, not_lt.mpr h7, h14]
          refine ⟨by rw [hv]; norm_num [REVIEW_INTERVALS_DAYS], by rw [hv]; exact h14, ?_⟩
          intro v hv' hcv
          rw [hv]
          fin_cases hv' <;> linarith
        · have hv : nextIntervalDays current = 30 := by
            simp [nextIntervalDays, REVIEW_INTERVALS_DAYS, List.find?,
              not_lt.mpr h1, not_lt.mpr h3, not_lt.mpr h7, not_lt.mpr h14, h]
          refine ⟨by rw [hv]; norm_num [REVIEW_INTERVALS_DAYS], by rw [hv]; exact h, ?_⟩
          intro v hv' hcv
          rw [hv]
          fin_cases hv' <;> linarith

lemma nextIntervalDays_of_ge (current : ℚ) (h : 30 ≤ current) :
    nextIntervalDays current = 30 := by
  have c1 : ¬current < 1 := by linarith
  have c3 : ¬current < 3 := by linarith
  have c7 : ¬current < 7 := by linarith
  have c14 : ¬current < 14 := by linarith
  have c30 : ¬current < 30 := by linarith
  simp [nextIntervalDays, REVIEW_INTERVALS_DAYS, List.find?, c1, c3, c7, c14, c30]

lemma nextIntervalDays_iterate (n : ℕ) :
    nextIntervalDays^[n + 1] 0 = REVIEW_INTERVALS_DAYS.getD n 30 := by
  induction n with
  | zero => decide
  | succ n ih =>
    rw [Function.iterate_succ_apply', ih]
    rcases n with _ | _ | _ | _ | m
    · decide
    · decide
    · decide
    · decide
    · have hval : REVIEW_INTERVALS_DAYS.getD (m + 4) 30 = 30 := by
        rcases m with _ | m
        · decide
        · have hlen : REVIEW_INTERVALS_DAYS.length ≤ m + 1 + 4 := by
            simp [REVIEW_INTERVALS_DAYS]
          simp [List.getD_eq_getElem?_getD, List.getElem?_eq_none hlen]
      have hval' : REVIEW_INTERVALS_DAYS.getD (m + 5) 30 = 30 := by
        have hlen : REVIEW_INTERVALS_DAYS.length ≤ m + 5 := by
          simp [REVIEW_INTERVALS_DAYS]
        simp [List.getD_eq_getElem?_getD, List.getElem?_eq_none hlen]
      rw [hval, hval']
      decide

/-- Claim C1: the spaced-repetition update of recordAttempt.  On a wrong
outcome the interval resets to 0 and the bucket is due now; on a correct
outcome whose freshly recomputed mastery is ≥ 0.82 the interval advances to
the smallest entry of REVIEW_INTERVALS_DAYS strictly above the old interval
(staying at 30 once reached) and the bucket is due that many days from now;
otherwise the interval resets to 0 and the bucket is due now.  Consequently
iterating the advance from interval 0 walks exactly 1, 3, 7, 14, 30, 30, ... -/
theorem progress_c1 (b : AdaptiveBucket) (isCorrect : Bool) (responseMs now : ℚ) :
    (isCorrect = false → (bucketStep b isCorrect responseMs now).intervalDays = 0 ∧
        (bucketStep b isCorrect responseMs now).dueAt = now) ∧
    (isCorrect = true → 82/100 ≤ (bucketStep b isCorrect responseMs now).mastery →
        (bucketStep b isCorrect responseMs now).intervalDays = nextIntervalDays b.intervalDays ∧
        (bucketStep b isCorrect responseMs now).dueAt
          = now + nextIntervalDays b.intervalDays * DAY_MS) ∧
    (isCorrect = true → (bucketStep b isCorrect responseMs now).mastery < 82/100 →
        (bucketStep b isCorrect responseMs now).intervalDays = 0 ∧
        (bucketStep b isCorrect responseMs now).dueAt = now) ∧
    (∀ current : ℚ, current < 30 →
        nextIntervalDays current ∈ REVIEW_INTERVALS_DAYS ∧ current < nextIntervalDays current ∧
        ∀ v ∈ REVIEW_INTERVALS_DAYS, current < v → nextIntervalDays current ≤ v) ∧
    (∀ current : ℚ, 30 ≤ current → nextIntervalDays current = 30) ∧
    (∀ n : ℕ, nextIntervalDays^[n + 1] 0 = REVIEW_INTERVALS_DAYS.getD n 30) := by
  refine ⟨?_, ?_, ?_, nextIntervalDays_spec, nextIntervalDays_of_ge, nextIntervalDays_iterate⟩
  · intro hwrong
    subst hwrong
    dsimp only [bucketStep]
    rw [if_pos rfl]
    exact ⟨rfl, rfl⟩
  · intro hcorrect hmast
    subst hcorrect
    dsimp only [bucketStep] at hmast ⊢
    rw [if_neg (by decide : ¬(true = false)), if_pos hmast]
    exact ⟨rfl, rfl⟩
  · intro hcorrect hmast
    subst hcorrect
    dsimp only [bucketStep] at hmast ⊢
    rw [if_neg (by decide : ¬(true = false)), if_neg (not_le.mpr hmast)]
    exact ⟨rfl, rfl⟩

/-- Witness for progress_c1: a first correct outcome on a fresh bucket has
mastery 1/10 < 0.82, so the schedule stays due-now with interval 0. -/
theorem progress_c1_witness :
    (bucketStep (freshBucket "global::degree:1" "degree:1" "global") true 500 0).mastery < 82/100 ∧
    (bucketStep (freshBucket "global::degree:1" "degree:1" "global") true 500 0).intervalDays = 0 ∧
    (bucketStep (freshBucket "global::degree:1" "degree:1" "global") true 500 0).dueAt = 0 := by
  have hm : (bucketStep (freshBucket "global::degree:1" "degree:1" "global") true 500 0).mastery
      = 1/10 := by
    norm_num [bucketStep, freshBucket, clamp01]
  have hlt : (bucketStep (freshBucket "global::degree:1" "degree:1" "global") true 500 0).mastery
      < 82/100 := by
    rw [hm]; norm_num
  have h :=
    (progress_c1 (freshBucket "global::degree:1" "degree:1" "global") true 500 0).2.2.1 rfl hlt
  exact ⟨hlt, h.1, h.2⟩

lemma reachable_inv (b : AdaptiveBucket) (h : ReachableBucket b) :
    0 ≤ b.attempts ∧ 0 ≤ b.correct ∧ 0 ≤ b.rollingAccuracy ∧ b.rollingAccuracy ≤ 1 ∧
      b.mastery
        = clamp01 ((b.rollingAccuracy * (7/10) + bucketRawAcc b * (3/10))
            * min 1 (b.attempts / 10)) := by
  induction h with
  | fresh id key context =>
    norm_num [freshBucket, bucketRawAcc, clamp01]
  | step b isCorrect responseMs now hb ih =>
    obtain ⟨ha, hc, hr0, hr1, _⟩ := ih
    refine ⟨?_, ?_, ?_, ?_, ?_⟩
    · simp only [bucketStep]
      linarith
    · cases isCorrect <;> simp only [bucketStep, if_true, if_false, Bool.false_eq_true] <;> linarith
    · cases isCorrect <;>
        simp only [bucketStep, if_true, if_false, Bool.false_eq_true] <;>
        split_ifs <;> linarith
    · cases isCorrect <;>
        simp only [bucketStep, if_true, if_false, Bool.false_eq_true] <;>
        split_ifs <;> linarith
    · simp only [bucketStep, bucketRawAcc]

/-- Claim C2: for every bucket reachable from a fresh bucket by recordAttempt
outcomes, mastery equals the confidence-scaled blend
clamp01((rollingAccuracy*0.7 + rawAccuracy*0.3) * min(1, attempts/10)); hence
mastery is 0 while no attempt exists and never exceeds the blended accuracy. -/
theorem progress_c2 (b : AdaptiveBucket) (h : ReachableBucket b) :
    b.mastery
      = clamp01 ((b.rollingAccuracy * (7/10) + bucketRawAcc b * (3/10))
          * min 1 (b.attempts / 10)) ∧
    (b.attempts = 0 → b.mastery = 0) ∧
    b.mastery ≤ b.rollingAccuracy * (7/10) + bucketRawAcc b * (3/10) := by
  obtain ⟨ha, hc, hr0, hr1, hm⟩ := reachable_inv b h
  have hraw : 0 ≤ bucketRawAcc b := by
    unfold bucketRawAcc
    split_ifs with h0
    · exact div_nonneg hc (le_of_lt h0)
    · exact le_refl 0
  have hblend : 0 ≤ b.rollingAccuracy * (7/10) + bucketRawAcc b * (3/10) := by positivity
  refine ⟨hm, ?_, ?_⟩
  · intro h0
    rw [hm, h0]
    norm_num [clamp01]
  · rw [hm]
    have hconf1 : min 1 (b.attempts / 10) ≤ 1 := min_le_left _ _
    have hconf0 : 0 ≤ min 1 (b.attempts / 10) :=
      le_min (by norm_num) (by positivity)
    have hstep : (b.rollingAccuracy * (7/10) + bucketRawAcc b * (3/10)) * min 1 (b.attempts / 10)
        ≤ b.rollingAccuracy * (7/10) + bucketRawAcc b * (3/10) :=
      mul_le_of_le_one_right hblend hconf1
    have hx : 0 ≤ (b.rollingAccuracy * (7/10) + bucketRawAcc b * (3/10))
        * min 1 (b.attempts / 10) := mul_nonneg hblend hconf0
    unfold clamp01
    exact max_le hblend (le_trans (min_le_right _ _) hstep)

/-- Witness for progress_c2: a fresh, never-attempted bucket has mastery 0. -/
theorem progress_c2_witness :
    (freshBucket "global::degree:1" "degree:1" "global").mastery = 0 :=
  (progress_c2 (freshBucket "global::degree:1" "degree:1" "global")
    (ReachableBucket.fresh "global::degree:1" "degree:1" "global")).2.1
    (by norm_num [freshBucket])

/-- ReviewStrategy from src/store/progressStore.ts. -/
inductive ReviewStrategy where
  | due
  | weak
deriving DecidableEq

/-- The "major" | "minor" | "mixed" tonal-family strings. -/
inductive TonalGroup where
  | major
  | minor
  | mixed
deriving DecidableEq

/-- bucketWeight from src/store/progressStore.ts. -/
def bucketWeight (bucket : AdaptiveBucket) (now : ℚ) : ℚ :=
  let dueBoost : ℚ := if 0 < bucket.dueAt ∧ bucket.dueAt ≤ now then 18/10 else 0
  let weaknessBoost := (1 - bucket.mastery) * (26/10)
  let missBoost : ℚ := if bucket.lastOutcomeCorrect = false then 11/10 else 0
  let recencyGapDays := max 0 ((now - bucket.lastSeen) / DAY_MS)
  let decayBoost := min (9/10) (recencyGapDays * (8/100))
  1 + dueBoost + weaknessBoost + missBoost + decayBoost

/-- tonalGroupFromContext from src/store/progressStore.ts. -/
def tonalGroupFromContext (context : String) : TonalGroup :=
  if strIncludes context ":major" then .major
  else if strIncludes context ":minor" then .minor
  else .mixed

/-- The supported-key test at the top of the getReviewFocus candidate filter
(src/store/progressStore.ts lines 380-392). -/
def supportedReviewKey (key : String) : Bool :=
  strStartsWith key "degree:"
  || strStartsWith key "movement:"
  || strStartsWith key "quality:"
  || strStartsWith key "progression:"
  || strStartsWith key "cadence:"
  || strStartsWith key "changed_position:"
  || strStartsWith key "meter:"
  || strStartsWith key "subdivision:"
  || strStartsWith key "syncopation:"
  || strStartsWith key "tap:"
  || strStartsWith key "phrase:"

/-- The default mode pool used when getReviewFocus gets no modePool. -/
def defaultModePool : List TrainingMode :=
  [.scale_degree, .functional_interval, .functional_harmony, .timing_grid, .phrase_recall]

/-- Input record of getReviewFocus from src/store/progressStore.ts. -/
structure ReviewInput where
  strategy : ReviewStrategy
  limit : ℕ
  modePool : Option (List TrainingMode)
  tonalGroup : Option TonalGroup

/-- The tonal-group clause of the getReviewFocus candidate filter
(src/store/progressStore.ts lines 394-397). -/
def tonalOk (inp : ReviewInput) (bucket : AdaptiveBucket) : Bool :=
  match inp.tonalGroup with
  | none => true
  | some g =>
    if g = TonalGroup.mixed then true
    else
      let bucketGroup := tonalGroupFromContext bucket.context
      !(decide (bucketGroup ≠ TonalGroup.mixed) && decide (bucketGroup ≠ g))

/-- The candidate filter of getReviewFocus (src/store/progressStore.ts
lines 379-400). -/
def reviewCandidate (now : ℚ) (inp : ReviewInput) (bucket : AdaptiveBucket) : Bool :=
  supportedReviewKey bucket.key
  && (inp.modePool.getD defaultModePool).contains bucket.mode
  && tonalOk inp bucket
  && (match inp.strategy with
      | .due => decide (0 < bucket.dueAt) && decide (bucket.dueAt ≤ now)
      | .weak => decide (2 ≤ bucket.attempts) && decide (bucket.mastery < 72/100))

/-- The sort order of getReviewFocus (src/store/progressStore.ts lines
402-405): ascending dueAt for "due", descending bucketWeight for "weak". -/
def reviewLe (strategy : ReviewStrategy) (now : ℚ) (a b : AdaptiveBucket) : Prop :=
  match strategy with
  | .due => a.dueAt ≤ b.dueAt
  | .weak => bucketWeight b now ≤ bucketWeight a now

instance (strategy : ReviewStrategy) (now : ℚ) : DecidableRel (reviewLe strategy now) :=
  fun a b => by cases strategy <;> dsimp [reviewLe] <;> infer_instance

instance (strategy : ReviewStrategy) (now : ℚ) :
    IsTotal AdaptiveBucket (reviewLe strategy now) where
  total a b := by cases strategy <;> dsimp [reviewLe] <;> exact le_total _ _

instance (strategy : ReviewStrategy) (now : ℚ) :
    IsTrans AdaptiveBucket (reviewLe strategy now) where
  trans a b c := by
    cases strategy <;> dsimp [reviewLe]
    · exact fun h1 h2 => le_trans h1 h2
    · exact fun h1 h2 => le_trans h2 h1

/-- The bucket selection of getReviewFocus (src/store/progressStore.ts
lines 379-407): filter, sort by the strategy order, truncate to the limit.
The source sorts through JavaScript Array.prototype.sort, modelled by
insertion sort over the same comparator. -/
def getReviewFocusBuckets (adaptiveBuckets : List AdaptiveBucket) (now : ℚ)
    (inp : ReviewInput) : List AdaptiveBucket :=
  (List.insertionSort (reviewLe inp.strategy now)
      (adaptiveBuckets.filter (reviewCandidate now inp))).take inp.limit

/-- ReviewFocus from src/store/progressStore.ts. -/
structure ReviewFocus where
  key : String
  context : String
  mode : TrainingMode
deriving DecidableEq

/-- The final projection of getReviewFocus (src/store/progressStore.ts
lines 407-411). -/
def bucketFocus (bucket : AdaptiveBucket) : ReviewFocus :=
  { key := bucket.key, context := bucket.context, mode := bucket.mode }

/-- getReviewFocus from src/store/progressStore.ts, over the bucket list
Object.values(s.adaptive). -/
def getReviewFocus (adaptiveBuckets : List AdaptiveBucket) (now : ℚ)
    (inp : ReviewInput) : List ReviewFocus :=
  (getReviewFocusBuckets adaptiveBuckets now inp).map bucketFocus

/-- A persisted adaptive bucket before normalization: each field is present
with a value of the right type, or missing/mistyped (None), matching the
field-by-field "x in bucket && typeof ..." guards of normalizeAdaptive. -/
structure RawAdaptiveBucket where
  key : Option String
  context : Option String
  mode : Option TrainingMode
  attempts : Option ℚ
  correct : Option ℚ
  wrong : Option ℚ
  lastSeen : Option ℚ
  rollingAccuracy : Option ℚ
  avgResponseMs : Option ℚ
  mastery : Option ℚ
  intervalDays : Option ℚ
  dueAt : Option ℚ
  lastOutcomeCorrect : Option Bool

/-- The per-entry body of normalizeAdaptive from src/store/progressStore.ts
(lines 144-179). -/
def normalizeAdaptiveBucket (id : String) (bucket : RawAdaptiveBucket) : AdaptiveBucket :=
  let key := bucket.key.getD id
  let context := bucket.context.getD "global"
  let attempts := bucket.attempts.getD 0
  let wrong := bucket.wrong.getD (max 0 (attempts - bucket.correct.getD 0))
  let correct := bucket.correct.getD (max 0 (attempts - wrong))
  let rollingAccuracy :=
    bucket.rollingAccuracy.getD (if 0 < attempts then correct / attempts else 0)
  let mode := bucket.mode.getD (inferModeFromKey key)
  { id := id, key := key, context := context, mode := mode,
    attempts := attempts, correct := correct, wrong := wrong,
    lastSeen := bucket.lastSeen.getD 0,
    rollingAccuracy := rollingAccuracy,
    avgResponseMs := bucket.avgResponseMs.getD 0,
    mastery := bucket.mastery.getD (clamp01 rollingAccuracy),
    intervalDays := bucket.intervalDays.getD 0,
    dueAt := bucket.dueAt.getD 0,
    lastOutcomeCorrect := bucket.lastOutcomeCorrect.getD true }

lemma mem_reviewFocusBuckets {adaptiveBuckets : List AdaptiveBucket} {now : ℚ}
    {inp : ReviewInput} {b : AdaptiveBucket}
    (hb : b ∈ getReviewFocusBuckets adaptiveBuckets now inp) :
    reviewCandidate now inp b = true := by
  unfold getReviewFocusBuckets at hb
  have h1 := (List.take_sublist _ _).subset hb
  have h2 := (List.perm_insertionSort (reviewLe inp.strategy now) _).subset h1
  exact (List.mem_filter.mp h2).2

lemma reviewCandidate_due {adaptiveBuckets : List AdaptiveBucket} {now : ℚ}
    {limit : ℕ} {modePool : Option (List TrainingMode)} {tonalGroup : Option TonalGroup}
    {b : AdaptiveBucket}
    (hb : b ∈ getReviewFocusBuckets adaptiveBuckets now ⟨.due, limit, modePool, tonalGroup⟩) :
    supportedReviewKey b.key = true ∧ 0 < b.dueAt ∧ b.dueAt ≤ now := by
  have h := mem_reviewFocusBuckets hb
  simp only [reviewCandidate, Bool.and_eq_true, decide_eq_true_eq] at h
  exact ⟨h.1.1.1, h.2.1, h.2.2⟩

/-- Claim C3: under the "due" strategy, getReviewFocus selects only buckets
whose dueAt has passed, sorts them ascending by dueAt, truncates to the
requested limit, and every returned key belongs to one of the recognized
key-prefix families. -/
theorem progress_c3 (adaptiveBuckets : List AdaptiveBucket) (now : ℚ) (inp : ReviewInput)
    (hdue : inp.strategy = .due) :
    (∀ b ∈ getReviewFocusBuckets adaptiveBuckets now inp, b.dueAt ≤ now) ∧
    List.Sorted (fun a b : AdaptiveBucket => a.dueAt ≤ b.dueAt)
      (getReviewFocusBuckets adaptiveBuckets now inp) ∧
    (getReviewFocus adaptiveBuckets now inp).length ≤ inp.limit ∧
    (∀ f ∈ getReviewFocus adaptiveBuckets now inp,
        (strStartsWith f.key "degree:" || strStartsWith f.key "movement:"
          || strStartsWith f.key "quality:" || strStartsWith f.key "progression:"
          || strStartsWith f.key "cadence:" || strStartsWith f.key "changed_position:"
          || strStartsWith f.key "meter:" || strStartsWith f.key "subdivision:"
          || strStartsWith f.key "syncopation:" || strStartsWith f.key "tap:"
          || strStartsWith f.key "phrase:") = true) ∧
    getReviewFocus adaptiveBuckets now inp
      = (getReviewFocusBuckets adaptiveBuckets now inp).map bucketFocus := by
  obtain ⟨strategy, limit, modePool, tonalGroup⟩ := inp
  dsimp only at hdue
  subst hdue
  refine ⟨?_, ?_, ?_, ?_, rfl⟩
  · intro b hb
    exact (reviewCandidate_due hb).2.2
  · have hs : List.Sorted (reviewLe .due now)
        (List.insertionSort (reviewLe .due now)
          (adaptiveBuckets.filter (reviewCandidate now ⟨.due, limit, modePool, tonalGroup⟩))) :=
      List.sorted_insertionSort _ _
    have ht := hs.sublist (List.take_sublist limit _)
    exact ht.imp (fun h => h)
  · unfold getReviewFocus getReviewFocusBuckets
    rw [List.length_map, List.length_take]
    exact min_le_left _ _
  · intro f hf
    obtain ⟨b, hb, hfb⟩ := List.mem_map.mp hf
    have hkey := (reviewCandidate_due hb).1
    rw [← hfb]
    exact hkey

/-- Witness for progress_c3 at a one-bucket store with its dueAt passed. -/
theorem progress_c3_witness :
    (∀ b ∈ getReviewFocusBuckets
        [{ freshBucket "g::degree:3" "degree:3" "g" with dueAt := 4 }] 10
        ⟨.due, 3, none, none⟩, b.dueAt ≤ 10) ∧
    List.Sorted (fun a b : AdaptiveBucket => a.dueAt ≤ b.dueAt)
      (getReviewFocusBuckets
        [{ freshBucket "g::degree:3" "degree:3" "g" with dueAt := 4 }] 10
        ⟨.due, 3, none, none⟩) ∧
    (getReviewFocus [{ freshBucket "g::degree:3" "degree:3" "g" with dueAt := 4 }] 10
        ⟨.due, 3, none, none⟩).length ≤ 3 ∧
    (∀ f ∈ getReviewFocus [{ freshBucket "g::degree:3" "degree:3" "g" with dueAt := 4 }] 10
        ⟨.due, 3, none, none⟩,
        (strStartsWith f.key "degree:" || strStartsWith f.key "movement:"
          || strStartsWith f.key "quality:" || strStartsWith f.key "progression:"
          || strStartsWith f.key "cadence:" || strStartsWith f.key "changed_position:"
          || strStartsWith f.key "meter:" || strStartsWith f.key "subdivision:"
          || strStartsWith f.key "syncopation:" || strStartsWith f.key "tap:"
          || strStartsWith f.key "phrase:") = true) ∧
    getReviewFocus [{ freshBucket "g::degree:3" "degree:3" "g" with dueAt := 4 }] 10
        ⟨.due, 3, none, none⟩
      = (getReviewFocusBuckets
          [{ freshBucket "g::degree:3" "degree:3" "g" with dueAt := 4 }] 10
          ⟨.due, 3, none, none⟩).map bucketFocus :=
  progress_c3 [{ freshBucket "g::degree:3" "degree:3" "g" with dueAt := 4 }] 10
    ⟨.due, 3, none, none⟩ rfl

/-- Claim C10: a bucket whose dueAt is 0 — the default that persisted-state
normalization writes for a missing dueAt field — is never selected by the
"due" review queue, because the filter demands dueAt strictly positive as
well as dueAt ≤ now. -/
theorem progress_c10 :
    (∀ (id : String) (raw : RawAdaptiveBucket), raw.dueAt = none →
        (normalizeAdaptiveBucket id raw).dueAt = 0) ∧
    (∀ (adaptiveBuckets : List AdaptiveBucket) (now : ℚ) (inp : ReviewInput),
        inp.strategy = .due →
        ∀ b ∈ getReviewFocusBuckets adaptiveBuckets now inp, 0 < b.dueAt ∧ b.dueAt ≠ 0) := by
  constructor
  · intro id raw hraw
    simp [normalizeAdaptiveBucket, hraw]
  · intro adaptiveBuckets now inp hdue b hb
    obtain ⟨strategy, limit, modePool, tonalGroup⟩ := inp
    dsimp only at hdue
    subst hdue
    have h := (reviewCandidate_due hb).2.1
    exact ⟨h, ne_of_gt h⟩

/-- Witness for progress_c10: the missing-field default is 0, and on a store
holding one never-scheduled bucket nothing with dueAt = 0 is selected. -/
theorem progress_c10_witness :
    (normalizeAdaptiveBucket "g::degree:3"
        ⟨none, none, none, none, none, none, none, none, none, none, none, none, none⟩).dueAt
      = 0 ∧
    (∀ b ∈ getReviewFocusBuckets [freshBucket "g::degree:3" "degree:3" "g"] 10
        ⟨.due, 3, none, none⟩, 0 < b.dueAt ∧ b.dueAt ≠ 0) :=
  ⟨progress_c10.1 "g::degree:3"
      ⟨none, none, none, none, none, none, none, none, none, none, none, none, none⟩ rfl,
    progress_c10.2 [freshBucket "g::degree:3" "degree:3" "g"] 10 ⟨.due, 3, none, none⟩ rfl⟩

/-- BriefFeedback from src/training/types.ts. -/
structure BriefFeedback where
  title : String
  subtitle : Option String
  note : Option String
  explanation : String
deriving DecidableEq

/-- TeachingCopy from src/training/types.ts; the nonempty-tuple type
[string, ...string[]] is modelled as a plain list (the overlay only ever
replaces it wholesale by a nonempty authored list). -/
structure TeachingCopy where
  lines : List String
  more : Option String
  tendencyHint : Option String
deriving DecidableEq

/-- The fields of AuthoredDrill (src/store/contentStore.ts) that the overlay
splice reads. -/
structure AuthoredDrill where
  mode : TrainingMode
  adaptiveKey : String
  promptOverride : String
  explanationTitle : String
  explanationBody : String
  coachingNotes : List String
  moreBody : String

/-- TrainingQuestion from src/training/types.ts.  The playback-plan and
metadata payloads are opaque type parameters here: the overlay never looks
inside them, and the PlaybackPlan type lives in the audio layer outside this
core. -/
structure TrainingQuestion (Plan Meta : Type) where
  id : String
  mode : TrainingMode
  tonic : String
  tonicMidi : ℤ
  prompt : String
  playbackPlan : Plan
  answerChoices : List String
  correctAnswer : String
  enforceSinging : Bool
  revealAfterSinging : Bool
  adaptiveFocusKey : String
  feedback : BriefFeedback
  teaching : TeachingCopy
  metadata : Meta

/-- applyAuthoredOverlay from src/training/generator.ts (lines 325-344).
findAuthoredDrill reads local storage, so the lookup it performs is passed
in as a function; a None result is the no-override case. -/
def applyAuthoredOverlay {Plan Meta : Type}
    (findAuthoredDrill : TrainingMode → String → Option AuthoredDrill)
    (question : TrainingQuestion Plan Meta) : TrainingQuestion Plan Meta :=
  match findAuthoredDrill question.mode question.adaptiveFocusKey with
  | none => question
  | some authored =>
    { question with
      prompt := if jsTrim authored.promptOverride = "" then question.prompt
        else jsTrim authored.promptOverride,
      feedback := { question.feedback with
        title := if jsTrim authored.explanationTitle = "" then question.feedback.title
          else jsTrim authored.explanationTitle,
        explanation := if jsTrim authored.explanationBody = "" then question.feedback.explanation
          else jsTrim authored.explanationBody },
      teaching := { question.teaching with
        lines := if authored.coachingNotes.length = 0 then question.teaching.lines
          else authored.coachingNotes,
        more := if jsTrim authored.moreBody = "" then question.teaching.more
          else some (jsTrim authored.moreBody) } }

/-- Claim C9: splicing an authored override over a generated question leaves
the answer choices, correct answer, playback plan, mode, tonic, metadata and
adaptive focus key untouched, with or without an override; only prompt,
feedback text and teaching text can change. -/
theorem generator_c9 {Plan Meta : Type}
    (findAuthoredDrill : TrainingMode → String → Option AuthoredDrill)
    (question : TrainingQuestion Plan Meta) :
    (applyAuthoredOverlay findAuthoredDrill question).answerChoices = question.answerChoices ∧
    (applyAuthoredOverlay findAuthoredDrill question).correctAnswer = question.correctAnswer ∧
    (applyAuthoredOverlay findAuthoredDrill question).playbackPlan = question.playbackPlan ∧
    (applyAuthoredOverlay findAuthoredDrill question).mode = question.mode ∧
    (applyAuthoredOverlay findAuthoredDrill question).tonic = question.tonic ∧
    (applyAuthoredOverlay findAuthoredDrill question).tonicMidi = question.tonicMidi ∧
    (applyAuthoredOverlay findAuthoredDrill question).metadata = question.metadata ∧
    (applyAuthoredOverlay findAuthoredDrill question).adaptiveFocusKey
      = question.adaptiveFocusKey ∧
    (applyAuthoredOverlay findAuthoredDrill question).enforceSinging = question.enforceSinging ∧
    (applyAuthoredOverlay findAuthoredDrill question).revealAfterSinging
      = question.revealAfterSinging ∧
    (applyAuthoredOverlay findAuthoredDrill question).id = question.id ∧
    (applyAuthoredOverlay findAuthoredDrill question).feedback.subtitle
      = question.feedback.subtitle ∧
    (applyAuthoredOverlay findAuthoredDrill question).feedback.note = question.feedback.note ∧
    (applyAuthoredOverlay findAuthoredDrill question).teaching.tendencyHint
      = question.teaching.tendencyHint := by
  unfold applyAuthoredOverlay
  cases findAuthoredDrill question.mode question.adaptiveFocusKey <;>
    exact ⟨rfl, rfl, rfl, rfl, rfl, rfl, rfl, rfl, rfl, rfl, rfl, rfl, rfl, rfl⟩

/-- Loop of pickWeighted (src/training/generator.ts lines 43-47): walk the
weighted items subtracting weights from the cursor, returning the first item
at which the cursor drops to 0 or below. -/
def pickGo {α : Type} : ℚ → List (α × ℚ) → Option α
  | _, [] => none
  | cursor, (item, weight) :: rest =>
    if cursor - weight ≤ 0 then some item else pickGo (cursor - weight) rest

/-- pickWeighted from src/training/generator.ts (lines 40-49).  roll models
the Math.random() draw in [0, 1).  When the loop falls through, the source
returns weighted[weighted.length - 1].item; on an empty candidate list that
indexes undefined and throws a TypeError, modelled here as None. -/
def pickWeighted {α : Type} (roll : ℚ) (items : List α) (weightFor : α → ℚ) : Option α :=
  let weighted := items.map (fun item => (item, max (1/100) (weightFor item)))
  let total := (weighted.map (fun it => it.2)).sum
  match pickGo (roll * total) weighted with
  | some item => some item
  | none => (weighted.getLast?).map (fun it => it.1)

/-- pickMatchingOrWeighted from src/training/generator.ts (lines 51-55). -/
def pickMatchingOrWeighted {α : Type} (roll : ℚ) (items : List α)
    (matchFn : α → Bool) (weightFor : α → ℚ) : Option α :=
  match items.find? matchFn with
  | some direct => some direct
  | none => pickWeighted roll items weightFor

/-- CadenceType from src/training/types.ts. -/
inductive CadenceType where
  | authentic
  | plagal
  | half
deriving DecidableEq

/-- HarmonyLevel from src/training/types.ts. -/
inductive HarmonyLevel where
  | h1
  | h2
deriving DecidableEq, Fintype

/-- ProgressionTemplate from src/training/progression.ts. -/
structure ProgressionTemplate where
  romanPath : List String
  cadenceType : CadenceType
  stage : ℕ
  tonalFamily : TonalGroup
deriving DecidableEq

/-- PROGRESSION_TEMPLATES from src/training/progression.ts: all three minor
templates carry stage 2 or 3. -/
def PROGRESSION_TEMPLATES : List ProgressionTemplate :=
  [ { romanPath := ["I", "V"], cadenceType := .half, stage := 1, tonalFamily := .major },
    { romanPath := ["I", "IV"], cadenceType := .half, stage := 1, tonalFamily := .major },
    { romanPath := ["I", "IV", "V"], cadenceType := .half, stage := 2, tonalFamily := .major },
    { romanPath := ["ii", "V", "I"], cadenceType := .authentic, stage := 2,
      tonalFamily := .major },
    { romanPath := ["I", "IV", "I"], cadenceType := .plagal, stage := 2, tonalFamily := .major },
    { romanPath := ["I", "ii", "V", "I"], cadenceType := .authentic, stage := 3,
      tonalFamily := .major },
    { romanPath := ["I", "IV", "V", "I"], cadenceType := .authentic, stage := 3,
      tonalFamily := .major },
    { romanPath := ["i", "iv", "V"], cadenceType := .half, stage := 2, tonalFamily := .minor },
    { romanPath := ["i", "iv", "i"], cadenceType := .plagal, stage := 2, tonalFamily := .minor },
    { romanPath := ["i", "iv", "V", "i"], cadenceType := .authentic, stage := 3,
      tonalFamily := .minor } ]

/-- The source string of each TonalMode value. -/
def tonalModeKey : TonalMode → String
  | .major => "major"
  | .natural_minor => "natural_minor"
  | .harmonic_minor => "harmonic_minor"
  | .melodic_minor => "melodic_minor"
  | .modal => "modal"

/-- tonalFamily from src/training/progression.ts: the mode string contains
"minor". -/
def tonalFamily (tonalMode : TonalMode) : TonalGroup :=
  if strIncludes (tonalModeKey tonalMode) "minor" then .minor else .major

/-- maxStageForLevel from src/training/progression.ts. -/
def maxStageForLevel : HarmonyLevel → ℕ
  | .h1 => 1
  | .h2 => 3

/-- progressionPool from src/training/progression.ts. -/
def progressionPool (tonalMode : TonalMode) (level : HarmonyLevel) : List ProgressionTemplate :=
  PROGRESSION_TEMPLATES.filter (fun template =>
    decide (template.tonalFamily = tonalFamily tonalMode)
      && decide (template.stage ≤ maxStageForLevel level))

lemma pickGo_mem {α : Type} (cursor : ℚ) (l : List (α × ℚ)) (y : α)
    (h : pickGo cursor l = some y) : ∃ p ∈ l, p.1 = y := by
  induction l generalizing cursor with
  | nil => simp [pickGo] at h
  | cons p rest ih =>
    obtain ⟨a, wa⟩ := p
    rw [pickGo] at h
    split_ifs at h with hc
    · exact ⟨(a, wa), List.mem_cons_self _ _, by injection h⟩
    · obtain ⟨q, hq, hqy⟩ := ih _ h
      exact ⟨q, List.mem_cons_of_mem _ hq, hqy⟩

/-- Claim C4: the minor-family progression pool at harmony level 1 is empty
(every minor template has stage ≥ 2), and on that empty candidate pool the
weighted-sampling helper faults — the None here models the TypeError thrown
by weighted[weighted.length - 1].item — instead of falling back to a safe
default concept.  On every non-empty pool it does return a pool element. -/
theorem generator_c4 :
    progressionPool .natural_minor .h1 = [] ∧
    (∀ (roll : ℚ) (weightFor : ProgressionTemplate → ℚ),
        pickWeighted roll (progressionPool .natural_minor .h1) weightFor = none) ∧
    (∀ (roll : ℚ) (matchFn : ProgressionTemplate → Bool)
        (weightFor : ProgressionTemplate → ℚ),
        pickMatchingOrWeighted roll (progressionPool .natural_minor .h1) matchFn weightFor
          = none) ∧
    (∀ (roll : ℚ) (x : ProgressionTemplate) (rest : List ProgressionTemplate)
        (weightFor : ProgressionTemplate → ℚ),
        ∃ y, pickWeighted roll (x :: rest) weightFor = some y ∧ y ∈ x :: rest) := by
  have hpool : progressionPool .natural_minor .h1 = [] := by rfl
  refine ⟨hpool, ?_, ?_, ?_⟩
  · intro roll weightFor
    rw [hpool]
    rfl
  · intro roll matchFn weightFor
    rw [hpool]
    rfl
  · intro roll x rest weightFor
    unfold pickWeighted
    cases hgo : pickGo (roll * (((x :: rest).map
        (fun item => (item, max (1/100) (weightFor item)))).map (fun it => it.2)).sum)
        ((x :: rest).map (fun item => (item, max (1/100) (weightFor item)))) with
    | some y =>
      obtain ⟨p, hp, hpy⟩ := pickGo_mem _ _ _ hgo
      obtain ⟨z, hz, hzp⟩ := List.mem_map.mp hp
      refine ⟨y, ?_, ?_⟩
      · simp only [hgo]
      · rw [← hpy, ← hzp]
        exact hz
    | none =>
      have hne : (x :: rest).map (fun item => (item, max (1/100) (weightFor item))) ≠ [] := by
        simp
      obtain ⟨p, hp⟩ := Option.isSome_iff_exists.mp (List.getLast?_isSome.mpr hne)
      obtain ⟨z, hz, hzp⟩ := List.mem_map.mp (List.mem_of_mem_getLast? (by rw [hp]; rfl))
      refine ⟨p.1, ?_, ?_⟩
      · simp only [hgo, hp]
        rfl
      · rw [← hzp]
        exact hz

/-- MeterSignature from src/training/types.ts ("2/4" | "3/4" | "4/4"). -/
inductive MeterSignature where
  | m2_4
  | m3_4
  | m4_4
deriving DecidableEq, Fintype

/-- TimingSubdivision from src/training/types.ts. -/
inductive TimingSubdivision where
  | quarter
  | eighth
  | triplet
  | sixteenth
deriving DecidableEq, Fintype

/-- TimingLevel from src/training/types.ts (1 | 2 | 3). -/
inductive TimingLevel where
  | t1
  | t2
  | t3
deriving DecidableEq, Fintype

/-- stepBeats from src/training/timing.ts. -/
def stepBeats : TimingSubdivision → ℚ
  | .quarter => 1
  | .eighth => 1/2
  | .triplet => 1/3
  | .sixteenth => 1/4

/-- beatsPerBar from src/training/timing.ts. -/
def beatsPerBar : MeterSignature → ℕ
  | .m2_4 => 2
  | .m3_4 => 3
  | .m4_4 => 4

/-- snapBeat from src/training/timing.ts. -/
def snapBeat (value step : ℚ) : ℚ := (jsRound (value / step) : ℚ) * step

/-- slots of generateTargetBeats (src/training/timing.ts line 67):
Math.max(1, Math.round(total / step)). -/
def slotsFor (meter : MeterSignature) (subdivision : TimingSubdivision) (bars : ℕ) : ℕ :=
  (max 1 (jsRound ((beatsPerBar meter : ℚ) * (bars : ℚ) / stepBeats subdivision))).toNat

/-- minHits of generateTargetBeats (line 68): Math.max(4, Math.round(slots * 0.35)). -/
def minHitsFor (meter : MeterSignature) (subdivision : TimingSubdivision) (bars : ℕ) : ℕ :=
  (max 4 (jsRound ((slotsFor meter subdivision bars : ℚ) * (35/100)))).toNat

/-- maxHits of generateTargetBeats (line 69):
Math.max(minHits + 1, Math.round(slots * 0.6)). -/
def maxHitsFor (meter : MeterSignature) (subdivision : TimingSubdivision) (bars : ℕ) : ℕ :=
  (max ((minHitsFor meter subdivision bars : ℤ) + 1)
    (jsRound ((slotsFor meter subdivision bars : ℚ) * (6/10)))).toNat

/-- targetCount of generateTargetBeats (line 70), with the Math.random()
draw Math.floor(random * (maxHits - minHits + 1)) modelled as countDraw mod
that width. -/
def targetCountFor (meter : MeterSignature) (subdivision : TimingSubdivision) (bars : ℕ)
    (countDraw : ℕ) : ℕ :=
  minHitsFor meter subdivision bars
    + countDraw % (maxHitsFor meter subdivision bars - minHitsFor meter subdivision bars + 1)

/-- Set.prototype.add on the insertion-ordered base set. -/
def insertNew (x : ℚ) (base : List ℚ) : List ℚ := if x ∈ base then base else base ++ [x]

/-- The while loop of generateTargetBeats (src/training/timing.ts lines
73-79), driven by a tape of (slot draw, skip-coin) pairs, one per iteration.
The loop exits only when the base set reaches targetCount elements; a tape
that runs out first leaves the loop still running, modelled as None. -/
def fillBeats (step : ℚ) (slots targetCount : ℕ) (includeSyncopation : Bool) :
    List (ℕ × Bool) → List ℚ → Option (List ℚ)
  | [], base => if targetCount ≤ base.length then some base else none
  | (slotDraw, skipDraw) :: rest, base =>
    if targetCount ≤ base.length then some base
    else
      let slot := slotDraw % slots
      let beat := (slot : ℚ) * step
      let isStrongBeat := decide (|jsMod1 beat| < 1/10000)
      if includeSyncopation = false ∧ isStrongBeat = false ∧ skipDraw = true then
        fillBeats step slots targetCount includeSyncopation rest base
      else
        fillBeats step slots targetCount includeSyncopation rest
          (insertNew (snapBeat beat step) base)

/-- generateTargetBeats from src/training/timing.ts (lines 63-82): fill the
base set starting from {0}, then return it sorted ascending. -/
def generateTargetBeats (meter : MeterSignature) (subdivision : TimingSubdivision) (bars : ℕ)
    (includeSyncopation : Bool) (countDraw : ℕ) (tape : List (ℕ × Bool)) : Option (List ℚ) :=
  (fillBeats (stepBeats subdivision) (slotsFor meter subdivision bars)
      (targetCountFor meter subdivision bars countDraw) includeSyncopation tape [0]).map
    (List.insertionSort (fun a b => a ≤ b))

/-- The meter pool of makeTimingPattern (src/training/timing.ts line 85). -/
def meterPool : TimingLevel → List MeterSignature
  | .t1 => [.m2_4, .m4_4]
  | _ => [.m2_4, .m3_4, .m4_4]

/-- The subdivision pool of makeTimingPattern (lines 86-87). -/
def subdivisionPool : TimingLevel → List TimingSubdivision
  | .t1 => [.quarter, .eighth]
  | .t2 => [.eighth, .triplet]
  | .t3 => [.eighth, .triplet, .sixteenth]

/-- The bar count of makeTimingPattern (line 97): 2 bars from level 2 on. -/
def barsFor : TimingLevel → ℕ
  | .t1 => 1
  | _ => 2

/-- The includeSyncopation flag of makeTimingPattern (line 99): level ≥ 2. -/
def syncFor : TimingLevel → Bool
  | .t1 => false
  | _ => true

lemma jsRound_eq {q : ℚ} {z : ℤ} (h1 : (z : ℚ) ≤ q + 1/2) (h2 : q + 1/2 < (z : ℚ) + 1) :
    jsRound q = z := by
  unfold jsRound
  rw [Int.floor_eq_iff]
  exact ⟨h1, h2⟩

lemma jsRound_natCast (n : ℕ) : jsRound (n : ℚ) = n :=
  jsRound_eq (by push_cast; linarith) (by push_cast; linarith)

lemma snapBeat_grid {k : ℕ} {step : ℚ} (hstep : step ≠ 0) :
    snapBeat ((k : ℚ) * step) step = (k : ℚ) * step := by
  unfold snapBeat
  rw [mul_div_cancel_right₀ _ hstep, jsRound_natCast]
  norm_cast

lemma gridList_length (slots : ℕ) (step : ℚ) :
    ((List.range slots).map (fun k : ℕ => (k : ℚ) * step)).length = slots := by
  rw [List.length_map, List.length_range]

lemma base_length_le_slots {base : List ℚ} {slots : ℕ} {step : ℚ} (hstep : step ≠ 0)
    (hnodup : base.Nodup) (hsub : ∀ x ∈ base, ∃ k < slots, x = (k : ℚ) * step) :
    base.length ≤ slots := by
  have hinj : Function.Injective (fun k : ℕ => (k : ℚ) * step) := by
    intro a b hab
    simp only at hab
    have := mul_right_cancel₀ hstep hab
    exact_mod_cast this
  have hsubset : base ⊆ (List.range slots).map (fun k : ℕ => (k : ℚ) * step) := by
    intro x hx
    obtain ⟨k, hk, hxk⟩ := hsub x hx
    subst hxk
    apply List.mem_map.mpr
    exact ⟨k, List.mem_range.mpr hk, rfl⟩
  calc base.length = base.toFinset.card := (List.toFinset_card_of_nodup hnodup).symm
    _ ≤ ((List.range slots).map (fun k : ℕ => (k : ℚ) * step)).toFinset.card := by
        apply Finset.card_le_card
        intro x hx
        exact List.mem_toFinset.mpr (hsubset (List.mem_toFinset.mp hx))
    _ ≤ ((List.range slots).map (fun k : ℕ => (k : ℚ) * step)).length := List.toFinset_card_le _
    _ = slots := gridList_length slots step

lemma fillBeats_stuck {step : ℚ} (hstep : step ≠ 0) {slots targetCount : ℕ}
    (hslots : 0 < slots) (htc : slots < targetCount) (sync : Bool) :
    ∀ (tape : List (ℕ × Bool)) (base : List ℚ), base.Nodup →
      (∀ x ∈ base, ∃ k < slots, x = (k : ℚ) * step) →
      fillBeats step slots targetCount sync tape base = none := by
  intro tape
  induction tape with
  | nil =>
    intro base hnodup hsub
    have hlen := base_length_le_slots hstep hnodup hsub
    rw [fillBeats, if_neg (show ¬targetCount ≤ base.length by omega)]
  | cons draw rest ih =>
    intro base hnodup hsub
    obtain ⟨slotDraw, skipDraw⟩ := draw
    have hlen := base_length_le_slots hstep hnodup hsub
    rw [fillBeats, if_neg (show ¬targetCount ≤ base.length by omega)]
    dsimp only
    split_ifs
    · exact ih base hnodup hsub
    · apply ih
      · unfold insertNew
        split_ifs with hmem
        · exact hnodup
        · simp [List.nodup_append, hnodup, hmem]
      · intro x hx
        unfold insertNew at hx
        split_ifs at hx with hmem
        · exact hsub x hx
        · rcases List.mem_append.mp hx with hx' | hx'
          · exact hsub x hx'
          · have hxeq : x = snapBeat ((slotDraw % slots : ℕ) * step) step := by
              simpa using hx'
            refine ⟨slotDraw % slots, Nat.mod_lt _ (by omega), ?_⟩
            rw [hxeq, snapBeat_grid hstep]

lemma jsRound_one : jsRound (1 : ℚ) = 1 := jsRound_eq (by norm_num) (by norm_num)

lemma jsRound_two : jsRound (2 : ℚ) = 2 := jsRound_eq (by norm_num) (by norm_num)

lemma jsRound_three : jsRound (3 : ℚ) = 3 := jsRound_eq (by norm_num) (by norm_num)

lemma jsRound_four : jsRound (4 : ℚ) = 4 := jsRound_eq (by norm_num) (by norm_num)

lemma jsRound_eight : jsRound (8 : ℚ) = 8 := jsRound_eq (by norm_num) (by norm_num)

lemma jsRound_q710 : jsRound (7/10 : ℚ) = 1 := jsRound_eq (by norm_num) (by norm_num)

lemma jsRound_q65 : jsRound (6/5 : ℚ) = 1 := jsRound_eq (by norm_num) (by norm_num)

lemma jsRound_q145 : jsRound (14/5 : ℚ) = 3 := jsRound_eq (by norm_num) (by norm_num)

lemma jsRound_q245 : jsRound (24/5 : ℚ) = 5 := jsRound_eq (by norm_num) (by norm_num)

lemma floor_q_half : ⌊(1/2 : ℚ)⌋ = 0 := by
  rw [Int.floor_eq_iff]
  norm_num

lemma floor_q_threehalf : ⌊(3/2 : ℚ)⌋ = 1 := by
  rw [Int.floor_eq_iff]
  norm_num

lemma jsMod1_half : jsMod1 (1/2 : ℚ) = 1/2 := by
  rw [jsMod1, floor_q_half]
  norm_num

lemma jsMod1_one : jsMod1 (1 : ℚ) = 0 := by
  rw [jsMod1]
  norm_num

lemma jsMod1_threehalf : jsMod1 (3/2 : ℚ) = 1/2 := by
  rw [jsMod1, floor_q_threehalf]
  norm_num

lemma jsMod1_two : jsMod1 (2 : ℚ) = 0 := by
  rw [jsMod1]
  norm_num

lemma slots_m24_quarter : slotsFor .m2_4 .quarter 1 = 2 := by
  norm_num [slotsFor, beatsPerBar, stepBeats, jsRound_two]
  rfl

lemma minHits_m24_quarter : minHitsFor .m2_4 .quarter 1 = 4 := by
  norm_num [minHitsFor, slots_m24_quarter, jsRound_q710]
  rfl

lemma slots_m44_eighth : slotsFor .m4_4 .eighth 1 = 8 := by
  norm_num [slotsFor, beatsPerBar, stepBeats, jsRound_eight]
  rfl

lemma minHits_m44_eighth : minHitsFor .m4_4 .eighth 1 = 4 := by
  norm_num [minHitsFor, slots_m44_eighth, jsRound_q145]
  rfl

lemma maxHits_m44_eighth : maxHitsFor .m4_4 .eighth 1 = 5 := by
  norm_num [maxHitsFor, slots_m44_eighth, minHits_m44_eighth, jsRound_q245]
  rfl

lemma targetCount_m44_eighth : targetCountFor .m4_4 .eighth 1 1 = 5 := by
  norm_num [targetCountFor, minHits_m44_eighth, maxHits_m44_eighth]

lemma minHits_ge_four (meter : MeterSignature) (subdivision : TimingSubdivision) (bars : ℕ) :
    4 ≤ minHitsFor meter subdivision bars := by
  unfold minHitsFor
  have h : (4 : ℤ) ≤ max 4 (jsRound ((slotsFor meter subdivision bars : ℚ) * (35/100))) :=
    le_max_left _ _
  have h2 := Int.toNat_le_toNat h
  omega

lemma minHits_lt_maxHits (meter : MeterSignature) (subdivision : TimingSubdivision) (bars : ℕ) :
    minHitsFor meter subdivision bars + 1 ≤ maxHitsFor meter subdivision bars := by
  unfold maxHitsFor
  have h : ((minHitsFor meter subdivision bars : ℤ) + 1)
      ≤ max ((minHitsFor meter subdivision bars : ℤ) + 1)
          (jsRound ((slotsFor meter subdivision bars : ℚ) * (6/10))) := le_max_left _ _
  have h2 := Int.toNat_le_toNat h
  omega

lemma targetCount_bounds (meter : MeterSignature) (subdivision : TimingSubdivision)
    (bars countDraw : ℕ) :
    minHitsFor meter subdivision bars ≤ targetCountFor meter subdivision bars countDraw ∧
    targetCountFor meter subdivision bars countDraw ≤ maxHitsFor meter subdivision bars := by
  unfold targetCountFor
  have hmm := minHits_lt_maxHits meter subdivision bars
  constructor
  · omega
  · have hmod := Nat.mod_lt countDraw
      (show 0 < maxHitsFor meter subdivision bars - minHitsFor meter subdivision bars + 1
        by omega)
    omega

/-- Claim C6: the timing builder does not always terminate.  At level 1 the
builder can select meter 2/4, quarter subdivision and 1 bar, which gives only
2 grid slots while the drawn target count is at least minHits = 4; the fill
loop can then never reach its exit condition, so for every finite random tape
it is still running (None). -/
theorem timing_c6 :
    MeterSignature.m2_4 ∈ meterPool .t1 ∧
    TimingSubdivision.quarter ∈ subdivisionPool .t1 ∧
    barsFor .t1 = 1 ∧ syncFor .t1 = false ∧
    slotsFor .m2_4 .quarter 1 = 2 ∧
    (∀ countDraw : ℕ, 4 ≤ targetCountFor .m2_4 .quarter 1 countDraw) ∧
    (∀ (countDraw : ℕ) (tape : List (ℕ × Bool)),
        generateTargetBeats .m2_4 .quarter 1 false countDraw tape = none) := by
  have htc : ∀ countDraw : ℕ, 4 ≤ targetCountFor .m2_4 .quarter 1 countDraw := by
    intro countDraw
    have h := minHits_ge_four MeterSignature.m2_4 TimingSubdivision.quarter 1
    unfold targetCountFor
    omega
  refine ⟨by decide, by decide, rfl, rfl, slots_m24_quarter, htc, ?_⟩
  intro countDraw tape
  unfold generateTargetBeats
  rw [slots_m24_quarter, fillBeats_stuck (by norm_num [stepBeats]) (by norm_num)
    (by have := htc countDraw; omega) false tape [0] (by simp) ?_]
  · rfl
  · intro x hx
    refine ⟨0, by norm_num, ?_⟩
    simp only [List.mem_singleton] at hx
    rw [hx]
    norm_num

lemma insertNew_length_le (x : ℚ) (base : List ℚ) :
    (insertNew x base).length ≤ base.length + 1 := by
  unfold insertNew
  split_ifs
  · omega
  · simp

lemma fillBeats_sub (step : ℚ) (slots targetCount : ℕ) (sync : Bool) :
    ∀ (tape : List (ℕ × Bool)) (base l : List ℚ),
      fillBeats step slots targetCount sync tape base = some l → ∀ x ∈ base, x ∈ l := by
  intro tape
  induction tape with
  | nil =>
    intro base l h x hx
    rw [fillBeats] at h
    split_ifs at h
    · injection h with h
      rw [← h]
      exact hx
  | cons draw rest ih =>
    obtain ⟨slotDraw, skipDraw⟩ := draw
    intro base l h x hx
    rw [fillBeats] at h
    dsimp only at h
    split_ifs at h with h1 h2
    · injection h with h
      rw [← h]
      exact hx
    · exact ih base l h x hx
    · apply ih _ l h x
      unfold insertNew
      split_ifs
      · exact hx
      · exact List.mem_append_left _ hx

lemma fillBeats_length (step : ℚ) (slots targetCount : ℕ) (sync : Bool) :
    ∀ (tape : List (ℕ × Bool)) (base l : List ℚ), base.length ≤ targetCount →
      fillBeats step slots targetCount sync tape base = some l → l.length = targetCount := by
  intro tape
  induction tape with
  | nil =>
    intro base l hle h
    rw [fillBeats] at h
    split_ifs at h with h1
    · injection h with h
      rw [← h]
      omega
  | cons draw rest ih =>
    obtain ⟨slotDraw, skipDraw⟩ := draw
    intro base l hle h
    rw [fillBeats] at h
    dsimp only at h
    split_ifs at h with h1 h2
    · injection h with h
      rw [← h]
      omega
    · exact ih base l hle h
    · apply ih _ l ?_ h
      have := insertNew_length_le
        (snapBeat ((slotDraw % slots : ℕ) * step) step) base
      omega

/-- Claim C5, amended: whenever the fill loop of generateTargetBeats does
complete, the returned beat set contains beat 0 and its size equals the drawn
target count, which lies between minHits = max(4, round(0.35*slots)) and
maxHits = max(minHits+1, round(0.6*slots)) — not between 35% and 60% of the
slots. -/
theorem timing_c5_amended (lvl : TimingLevel) (meter : MeterSignature)
    (subdivision : TimingSubdivision) (hm : meter ∈ meterPool lvl)
    (hs : subdivision ∈ subdivisionPool lvl) (countDraw : ℕ) (tape : List (ℕ × Bool))
    (l : List ℚ)
    (hgen : generateTargetBeats meter subdivision (barsFor lvl) (syncFor lvl) countDraw tape
      = some l) :
    0 ∈ l ∧ l.length = targetCountFor meter subdivision (barsFor lvl) countDraw ∧
    minHitsFor meter subdivision (barsFor lvl) ≤ l.length ∧
    l.length ≤ maxHitsFor meter subdivision (barsFor lvl) := by
  unfold generateTargetBeats at hgen
  cases hfill : fillBeats (stepBeats subdivision) (slotsFor meter subdivision (barsFor lvl))
      (targetCountFor meter subdivision (barsFor lvl) countDraw) (syncFor lvl) tape [0] with
  | none =>
    rw [hfill] at hgen
    exact absurd hgen (by simp)
  | some l0 =>
    rw [hfill] at hgen
    have hl : l = List.insertionSort (fun a b => a ≤ b) l0 := by
      injection hgen with hgen
      exact hgen.symm
    have hperm : List.Perm l l0 := by
      rw [hl]
      exact List.perm_insertionSort _ l0
    have hmem0 : (0 : ℚ) ∈ l0 :=
      fillBeats_sub _ _ _ _ tape [0] l0 hfill 0 (by simp)
    have hbase : ([(0 : ℚ)]).length ≤ targetCountFor meter subdivision (barsFor lvl) countDraw := by
      have h1 := minHits_ge_four meter subdivision (barsFor lvl)
      have h2 := (targetCount_bounds meter subdivision (barsFor lvl) countDraw).1
      simp only [List.length_singleton]
      omega
    have hlen0 : l0.length = targetCountFor meter subdivision (barsFor lvl) countDraw :=
      fillBeats_length _ _ _ _ tape [0] l0 hbase hfill
    have hbounds := targetCount_bounds meter subdivision (barsFor lvl) countDraw
    refine ⟨hperm.mem_iff.mpr hmem0, ?_, ?_, ?_⟩
    · rw [hperm.length_eq, hlen0]
    · rw [hperm.length_eq, hlen0]
      exact hbounds.1
    · rw [hperm.length_eq, hlen0]
      exact hbounds.2

lemma generateTargetBeats_example :
    generateTargetBeats .m4_4 .eighth 1 false 1 [(1, false), (2, false), (3, false), (4, false)]
      = some [0, 1/2, 1, 3/2, 2] := by
  have hfill : fillBeats (1/2 : ℚ) 8 5 false [(1, false), (2, false), (3, false), (4, false)] [0]
      = some [0, 1/2, 1, 3/2, 2] := by
    norm_num [fillBeats, insertNew, snapBeat, jsMod1_half, jsMod1_one, jsMod1_threehalf,
      jsMod1_two, jsRound_one, jsRound_two, jsRound_three, jsRound_four]
  have hsort : List.insertionSort (fun a b : ℚ => a ≤ b) [0, 1/2, 1, 3/2, 2]
      = [0, 1/2, 1, 3/2, 2] := by
    norm_num [List.insertionSort, List.orderedInsert]
  unfold generateTargetBeats
  rw [slots_m44_eighth, targetCount_m44_eighth, show stepBeats .eighth = 1/2 from rfl, hfill]
  simp only [Option.map_some']
  rw [hsort]

/-- Claim C5, counterexample: at level 1 the builder can select meter 4/4,
eighth subdivision and 1 bar (8 grid slots), and a run that completes with
target count 5 returns 5 beat onsets — 62.5% of the 8 available slots,
outside the claimed 35%-60% band. -/
theorem timing_c5_counterexample :
    MeterSignature.m4_4 ∈ meterPool .t1 ∧
    TimingSubdivision.eighth ∈ subdivisionPool .t1 ∧
    barsFor .t1 = 1 ∧ syncFor .t1 = false ∧
    generateTargetBeats .m4_4 .eighth 1 false 1 [(1, false), (2, false), (3, false), (4, false)]
      = some [0, 1/2, 1, 3/2, 2] ∧
    ([0, 1/2, 1, 3/2, (2 : ℚ)] : List ℚ).length = 5 ∧
    ¬ ((([0, 1/2, 1, 3/2, (2 : ℚ)] : List ℚ).length : ℚ)
        ≤ (60/100) * (slotsFor .m4_4 .eighth 1 : ℚ)) := by
  refine ⟨by decide, by decide, rfl, rfl, generateTargetBeats_example, rfl, ?_⟩
  rw [slots_m44_eighth]
  norm_num

/-- Witness for timing_c5_amended at the concrete completed run of the
counterexample input. -/
theorem timing_c5_witness :
    (0 : ℚ) ∈ ([0, 1/2, 1, 3/2, 2] : List ℚ) ∧
    ([0, 1/2, 1, 3/2, (2 : ℚ)] : List ℚ).length = targetCountFor .m4_4 .eighth (barsFor .t1) 1 ∧
    minHitsFor .m4_4 .eighth (barsFor .t1) ≤ ([0, 1/2, 1, 3/2, (2 : ℚ)] : List ℚ).length ∧
    ([0, 1/2, 1, 3/2, (2 : ℚ)] : List ℚ).length ≤ maxHitsFor .m4_4 .eighth (barsFor .t1) :=
  timing_c5_amended .t1 .m4_4 .eighth (by decide) (by decide) 1
    [(1, false), (2, false), (3, false), (4, false)] [0, 1/2, 1, 3/2, 2]
    generateTargetBeats_example

/-- Repeated Array.prototype.splice(idx, 1) driven by an index tape: take n
elements out of the pool, each removed at a tape-selected index (or stop
early when the pool empties).  This is the loop shared by sampleDistinct and
by the Math.random()-comparator shuffle, whose result is some
implementation-dependent permutation of its input. -/
def spliceTake {α : Type} : ℕ → List ℕ → List α → List α
  | 0, _, _ => []
  | _ + 1, _, [] => []
  | n + 1, tape, x :: xs =>
    let pool := x :: xs
    let idx := tape.headD 0 % pool.length
    pool.getD idx x :: spliceTake n (tape.drop 1) (pool.eraseIdx idx)

/-- sampleDistinct from src/training/generator.ts (lines 57-65). -/
def sampleDistinct {α : Type} [DecidableEq α] (tape : List ℕ) (arr : List α) (count : ℕ)
    (exclude : α) : List α :=
  spliceTake count tape (arr.filter (fun x => decide (x ≠ exclude)))

/-- The choices.sort(() => Math.random() - 0.5) shuffle: an arbitrary
tape-selected permutation of the list. -/
def shuffle {α : Type} (tape : List ℕ) (l : List α) : List α := spliceTake l.length tape l

lemma getD_mem {α : Type} :
    ∀ (l : List α) (i : ℕ) (d : α), i < l.length → l.getD i d ∈ l := by
  intro l
  induction l with
  | nil =>
    intro i d h
    simp at h
  | cons a as ih =>
    intro i d h
    cases i with
    | zero => simp [List.getD_cons_zero]
    | succ j =>
      rw [List.getD_cons_succ]
      exact List.mem_cons_of_mem _ (ih j d (by simpa using h))

lemma getD_not_mem_eraseIdx {α : Type} :
    ∀ (l : List α) (i : ℕ) (d : α), l.Nodup → i < l.length → l.getD i d ∉ l.eraseIdx i := by
  intro l
  induction l with
  | nil =>
    intro i d _ h
    simp at h
  | cons a as ih =>
    intro i d hnd h
    cases i with
    | zero =>
      rw [List.getD_cons_zero]
      simpa using (List.nodup_cons.mp hnd).1
    | succ j =>
      rw [List.getD_cons_succ, List.eraseIdx_cons_succ]
      simp only [List.mem_cons, not_or]
      refine ⟨?_, ih j d (List.nodup_cons.mp hnd).2 (by simpa using h)⟩
      intro heq
      exact (List.nodup_cons.mp hnd).1 (heq ▸ getD_mem as j d (by simpa using h))

lemma spliceTake_subset {α : Type} :
    ∀ (n : ℕ) (tape : List ℕ) (pool : List α), ∀ x ∈ spliceTake n tape pool, x ∈ pool := by
  intro n
  induction n with
  | zero =>
    intro tape pool x hx
    simp [spliceTake] at hx
  | succ m ih =>
    intro tape pool x hx
    cases pool with
    | nil => simp [spliceTake] at hx
    | cons a as =>
      rw [spliceTake] at hx
      rcases List.mem_cons.mp hx with hx | hx
      · rw [hx]
        exact getD_mem _ _ _ (Nat.mod_lt _ (by simp))
      · exact (List.eraseIdx_sublist _ _).subset (ih _ _ x hx)

lemma spliceTake_length {α : Type} :
    ∀ (n : ℕ) (tape : List ℕ) (pool : List α),
      (spliceTake n tape pool).length = min n pool.length := by
  intro n
  induction n with
  | zero =>
    intro tape pool
    simp [spliceTake]
  | succ m ih =>
    intro tape pool
    cases pool with
    | nil => simp [spliceTake]
    | cons a as =>
      rw [spliceTake]
      rw [List.length_cons, ih]
      have hidx : (tape.headD 0 % (a :: as).length) < (a :: as).length :=
        Nat.mod_lt _ (by simp)
      rw [List.length_eraseIdx_of_lt hidx]
      simp only [List.length_cons]
      omega

lemma spliceTake_nodup {α : Type} :
    ∀ (n : ℕ) (tape : List ℕ) (pool : List α), pool.Nodup → (spliceTake n tape pool).Nodup := by
  intro n
  induction n with
  | zero =>
    intro tape pool _
    simp [spliceTake]
  | succ m ih =>
    intro tape pool hnd
    cases pool with
    | nil => simp [spliceTake]
    | cons a as =>
      rw [spliceTake]
      rw [List.nodup_cons]
      have hidx : (tape.headD 0 % (a :: as).length) < (a :: as).length :=
        Nat.mod_lt _ (by simp)
      refine ⟨?_, ih _ _ ((List.eraseIdx_sublist _ _).nodup hnd)⟩
      intro hmem
      exact getD_not_mem_eraseIdx _ _ _ hnd hidx (spliceTake_subset _ _ _ _ hmem)

lemma perm_getD_cons_eraseIdx {α : Type} :
    ∀ (l : List α) (i : ℕ) (d : α), i < l.length →
      List.Perm l (l.getD i d :: l.eraseIdx i) := by
  intro l
  induction l with
  | nil =>
    intro i d h
    simp at h
  | cons a as ih =>
    intro i d h
    cases i with
    | zero =>
      rw [List.getD_cons_zero]
      rfl
    | succ j =>
      rw [List.getD_cons_succ, List.eraseIdx_cons_succ]
      have hj : j < as.length := by simpa using h
      have h2 : List.Perm (a :: as) (a :: as.getD j d :: as.eraseIdx j) :=
        (ih j d hj).cons a
      exact h2.trans (List.Perm.swap _ _ _)

lemma spliceTake_perm {α : Type} :
    ∀ (n : ℕ) (tape : List ℕ) (pool : List α), pool.length ≤ n →
      List.Perm (spliceTake n tape pool) pool := by
  intro n
  induction n with
  | zero =>
    intro tape pool h
    have hnil : pool = [] := List.length_eq_zero.mp (by omega)
    subst hnil
    simp [spliceTake]
  | succ m ih =>
    intro tape pool h
    cases pool with
    | nil => simp [spliceTake]
    | cons a as =>
      rw [spliceTake]
      have hidx : (tape.headD 0 % (a :: as).length) < (a :: as).length :=
        Nat.mod_lt _ (by simp)
      have herase : ((a :: as).eraseIdx (tape.headD 0 % (a :: as).length)).length ≤ m := by
        rw [List.length_eraseIdx_of_lt hidx]
        simp only [List.length_cons] at h ⊢
        omega
      have hih := ih (tape.drop 1) _ herase
      exact (List.Perm.cons _ hih).trans (perm_getD_cons_eraseIdx _ _ _ hidx).symm

/-- IntervalLevel from src/training/types.ts (1 | 2 | 3 | 4). -/
inductive IntervalLevel where
  | l1
  | l2
  | l3
  | l4
deriving DecidableEq, Fintype

/-- The level-1 interval movement list (src/training/generator.ts lines
85-96). -/
def intervalMovements1 : List (String × String) :=
  [("1", "2"), ("2", "1"), ("2", "3"), ("3", "2"), ("3", "4"), ("4", "3"), ("4", "5"), ("5", "4")]

/-- The movements added at level 2 (lines 97-107). -/
def intervalMovements2 : List (String × String) :=
  [("1", "3"), ("3", "1"), ("2", "4"), ("4", "2"), ("3", "5"), ("5", "3")]

/-- The movements added at level 3 (lines 108-118). -/
def intervalMovements3 : List (String × String) :=
  [("1", "4"), ("4", "1"), ("1", "5"), ("5", "1"), ("2", "5"), ("5", "2")]

/-- intervalMovementPool from src/training/generator.ts (lines 84-120):
each level spreads the previous level and appends its new movements; level 4
adds the octave movement ("1", "1"). -/
def intervalMovementPool : IntervalLevel → List (String × String)
  | .l1 => intervalMovements1
  | .l2 => intervalMovements1 ++ intervalMovements2
  | .l3 => intervalMovements1 ++ intervalMovements2 ++ intervalMovements3
  | .l4 => intervalMovements1 ++ intervalMovements2 ++ intervalMovements3 ++ [("1", "1")]

/-- The two movement directions. -/
inductive Direction where
  | ascending
  | descending
deriving DecidableEq

/-- movementDirection from src/training/generator.ts (lines 122-131): a
movement descends when the target degree sits at a lower semitone than the
source degree; ties count as ascending. -/
def movementDirection (movement : String × String) (tonalMode : TonalMode) : Direction :=
  if degreeSemitone movement.2 tonalMode < degreeSemitone movement.1 tonalMode then .descending
  else .ascending

/-- The sameDirectionPool of buildBalancedMovementChoices
(src/training/generator.ts lines 145-148). -/
def sameDirectionPool (correctMovement : String × String) (pool : List (String × String))
    (tonalMode : TonalMode) : List String :=
  ((pool.filter (fun movement =>
      decide (movementLabel movement.1 movement.2
        ≠ movementLabel correctMovement.1 correctMovement.2))).filter
    (fun movement =>
      decide (movementDirection movement tonalMode
        = movementDirection correctMovement tonalMode))).map
    (fun movement => movementLabel movement.1 movement.2)

/-- The oppositeDirectionPool of buildBalancedMovementChoices (lines
150-152). -/
def oppositeDirectionPool (correctMovement : String × String) (pool : List (String × String))
    (tonalMode : TonalMode) : List String :=
  (pool.filter (fun movement =>
      decide (movementDirection movement tonalMode
        ≠ movementDirection correctMovement tonalMode))).map
    (fun movement => movementLabel movement.1 movement.2)

/-- buildBalancedMovementChoices from src/training/generator.ts (lines
133-161): the correct label plus 1 same-direction and 2 opposite-direction
distractors, then shuffled. -/
def buildBalancedMovementChoices (sameTape oppTape shuffleTape : List ℕ)
    (correctMovement : String × String) (pool : List (String × String))
    (tonalMode : TonalMode) : List String :=
  let correctLabel := movementLabel correctMovement.1 correctMovement.2
  shuffle shuffleTape
    (correctLabel ::
      (sampleDistinct sameTape (sameDirectionPool correctMovement pool tonalMode) 1 correctLabel
        ++ sampleDistinct oppTape
            (oppositeDirectionPool correctMovement pool tonalMode) 2 correctLabel))

lemma movementPools_ok :
    ∀ (lvl : IntervalLevel) (tonalMode : TonalMode), ∀ mv ∈ intervalMovementPool lvl,
      1 ≤ ((sameDirectionPool mv (intervalMovementPool lvl) tonalMode).filter
            (fun x => decide (x ≠ movementLabel mv.1 mv.2))).length ∧
      2 ≤ ((oppositeDirectionPool mv (intervalMovementPool lvl) tonalMode).filter
            (fun x => decide (x ≠ movementLabel mv.1 mv.2))).length ∧
      ((sameDirectionPool mv (intervalMovementPool lvl) tonalMode).filter
            (fun x => decide (x ≠ movementLabel mv.1 mv.2))).Nodup ∧
      ((oppositeDirectionPool mv (intervalMovementPool lvl) tonalMode).filter
            (fun x => decide (x ≠ movementLabel mv.1 mv.2))).Nodup ∧
      ∀ x ∈ (sameDirectionPool mv (intervalMovementPool lvl) tonalMode).filter
            (fun x => decide (x ≠ movementLabel mv.1 mv.2)),
        x ∉ (oppositeDirectionPool mv (intervalMovementPool lvl) tonalMode).filter
            (fun x => decide (x ≠ movementLabel mv.1 mv.2)) := by
  decide

/-- Claim C7: for every interval level, tonal mode and movement of that
level's pool, the functional_interval answer set is some shuffle of the
correct movement label plus one same-direction distractor and two
opposite-direction distractors, all four pairwise distinct, with the correct
label appearing exactly once. -/
theorem generator_c7 (lvl : IntervalLevel) (tonalMode : TonalMode) (mv : String × String)
    (hmv : mv ∈ intervalMovementPool lvl) (sameTape oppTape shuffleTape : List ℕ) :
    ∃ d1 d2 d3 : String,
      List.Perm
        (buildBalancedMovementChoices sameTape oppTape shuffleTape mv
          (intervalMovementPool lvl) tonalMode)
        [movementLabel mv.1 mv.2, d1, d2, d3] ∧
      (buildBalancedMovementChoices sameTape oppTape shuffleTape mv
          (intervalMovementPool lvl) tonalMode).length = 4 ∧
      (buildBalancedMovementChoices sameTape oppTape shuffleTape mv
          (intervalMovementPool lvl) tonalMode).count (movementLabel mv.1 mv.2) = 1 ∧
      (buildBalancedMovementChoices sameTape oppTape shuffleTape mv
          (intervalMovementPool lvl) tonalMode).Nodup ∧
      d1 ∈ sameDirectionPool mv (intervalMovementPool lvl) tonalMode ∧
      d2 ∈ oppositeDirectionPool mv (intervalMovementPool lvl) tonalMode ∧
      d3 ∈ oppositeDirectionPool mv (intervalMovementPool lvl) tonalMode ∧
      d1 ≠ movementLabel mv.1 mv.2 ∧ d2 ≠ movementLabel mv.1 mv.2 ∧
      d3 ≠ movementLabel mv.1 mv.2 ∧ d1 ≠ d2 ∧ d1 ≠ d3 ∧ d2 ≠ d3 := by
  obtain ⟨hlen1, hlen2, hnd1, hnd2, hdisj⟩ := movementPools_ok lvl tonalMode mv hmv
  have hs1len : (sampleDistinct sameTape
      (sameDirectionPool mv (intervalMovementPool lvl) tonalMode) 1
      (movementLabel mv.1 mv.2)).length = 1 := by
    unfold sampleDistinct
    rw [spliceTake_length]
    omega
  have hs2len : (sampleDistinct oppTape
      (oppositeDirectionPool mv (intervalMovementPool lvl) tonalMode) 2
      (movementLabel mv.1 mv.2)).length = 2 := by
    unfold sampleDistinct
    rw [spliceTake_length]
    omega
  obtain ⟨d1, hd1⟩ := List.length_eq_one.mp hs1len
  obtain ⟨d2, d3, hd23⟩ := List.length_eq_two.mp hs2len
  have hd1memf : d1 ∈ (sameDirectionPool mv (intervalMovementPool lvl) tonalMode).filter
      (fun x => decide (x ≠ movementLabel mv.1 mv.2)) := by
    apply spliceTake_subset 1 sameTape _ d1
    rw [← sampleDistinct]
    rw [hd1]
    exact List.mem_singleton.mpr rfl
  have hd2memf : d2 ∈ (oppositeDirectionPool mv (intervalMovementPool lvl) tonalMode).filter
      (fun x => decide (x ≠ movementLabel mv.1 mv.2)) := by
    apply spliceTake_subset 2 oppTape _ d2
    rw [← sampleDistinct]
    rw [hd23]
    exact List.mem_cons_self _ _
  have hd3memf : d3 ∈ (oppositeDirectionPool mv (intervalMovementPool lvl) tonalMode).filter
      (fun x => decide (x ≠ movementLabel mv.1 mv.2)) := by
    apply spliceTake_subset 2 oppTape _ d3
    rw [← sampleDistinct]
    rw [hd23]
    exact List.mem_cons_of_mem _ (List.mem_singleton.mpr rfl)
  have hd1ne : d1 ≠ movementLabel mv.1 mv.2 :=
    of_decide_eq_true (List.mem_filter.mp hd1memf).2
  have hd2ne : d2 ≠ movementLabel mv.1 mv.2 :=
    of_decide_eq_true (List.mem_filter.mp hd2memf).2
  have hd3ne : d3 ≠ movementLabel mv.1 mv.2 :=
    of_decide_eq_true (List.mem_filter.mp hd3memf).2
  have hd12 : d1 ≠ d2 := fun h => hdisj d1 hd1memf (h ▸ hd2memf)
  have hd13 : d1 ≠ d3 := fun h => hdisj d1 hd1memf (h ▸ hd3memf)
  have hd23ne : d2 ≠ d3 := by
    have hs2nd : (sampleDistinct oppTape
        (oppositeDirectionPool mv (intervalMovementPool lvl) tonalMode) 2
        (movementLabel mv.1 mv.2)).Nodup := by
      unfold sampleDistinct
      exact spliceTake_nodup _ _ _ hnd2
    rw [hd23] at hs2nd
    simp only [List.nodup_cons, List.mem_singleton, List.not_mem_nil, not_false_iff,
      List.nodup_nil, and_true] at hs2nd
    exact hs2nd
  have hunshuffled : (movementLabel mv.1 mv.2 ::
      (sampleDistinct sameTape (sameDirectionPool mv (intervalMovementPool lvl) tonalMode) 1
          (movementLabel mv.1 mv.2)
        ++ sampleDistinct oppTape (oppositeDirectionPool mv (intervalMovementPool lvl) tonalMode)
            2 (movementLabel mv.1 mv.2)))
      = [movementLabel mv.1 mv.2, d1, d2, d3] := by
    rw [hd1, hd23]
    rfl
  have hperm : List.Perm
      (buildBalancedMovementChoices sameTape oppTape shuffleTape mv
        (intervalMovementPool lvl) tonalMode)
      [movementLabel mv.1 mv.2, d1, d2, d3] := by
    unfold buildBalancedMovementChoices shuffle
    dsimp only
    rw [hunshuffled]
    exact spliceTake_perm _ _ _ (le_refl _)
  have hnodup4 : ([movementLabel mv.1 mv.2, d1, d2, d3] : List String).Nodup := by
    simp only [List.nodup_cons, List.mem_cons, List.mem_singleton, List.not_mem_nil,
      not_false_iff, List.nodup_nil, and_true, not_or]
    exact ⟨⟨Ne.symm hd1ne, Ne.symm hd2ne, Ne.symm hd3ne⟩, ⟨hd12, hd13⟩, hd23ne⟩
  have hcount4 : List.count (movementLabel mv.1 mv.2)
      ([movementLabel mv.1 mv.2, d1, d2, d3] : List String) = 1 := by
    have h1 : (movementLabel mv.1 mv.2) ∉ ([d1, d2, d3] : List String) := by
      simp only [List.mem_cons, List.mem_singleton, List.not_mem_nil, not_or, or_false]
      exact ⟨Ne.symm hd1ne, Ne.symm hd2ne, Ne.symm hd3ne⟩
    rw [List.count_cons_self, List.count_eq_zero_of_not_mem h1]
  refine ⟨d1, d2, d3, hperm, ?_, ?_, ?_,
    (List.mem_filter.mp hd1memf).1, (List.mem_filter.mp hd2memf).1,
    (List.mem_filter.mp hd3memf).1,
    hd1ne, hd2ne, hd3ne, hd12, hd13, hd23ne⟩
  · rw [hperm.length_eq]
    rfl
  · rw [hperm.count_eq, hcount4]
  · exact hperm.nodup_iff.mpr hnodup4

/-- Witness for generator_c7 at level 1, major mode, movement 1 -> 2, with
all-zero tapes. -/
theorem generator_c7_witness :
    (("1", "2") ∈ intervalMovementPool .l1) ∧
    ∃ d1 d2 d3 : String,
      List.Perm
        (buildBalancedMovementChoices [] [] [] ("1", "2") (intervalMovementPool .l1) .major)
        [movementLabel ("1", "2").1 ("1", "2").2, d1, d2, d3] ∧
      (buildBalancedMovementChoices [] [] [] ("1", "2")
          (intervalMovementPool .l1) .major).length = 4 ∧
      (buildBalancedMovementChoices [] [] [] ("1", "2")
          (intervalMovementPool .l1) .major).count (movementLabel ("1", "2").1 ("1", "2").2)
        = 1 ∧
      (buildBalancedMovementChoices [] [] [] ("1", "2") (intervalMovementPool .l1) .major).Nodup ∧
      d1 ∈ sameDirectionPool ("1", "2") (intervalMovementPool .l1) .major ∧
      d2 ∈ oppositeDirectionPool ("1", "2") (intervalMovementPool .l1) .major ∧
      d3 ∈ oppositeDirectionPool ("1", "2") (intervalMovementPool .l1) .major ∧
      d1 ≠ movementLabel ("1", "2").1 ("1", "2").2 ∧
      d2 ≠ movementLabel ("1", "2").1 ("1", "2").2 ∧
      d3 ≠ movementLabel ("1", "2").1 ("1", "2").2 ∧ d1 ≠ d2 ∧ d1 ≠ d3 ∧ d2 ≠ d3 :=
  ⟨by decide, generator_c7 .l1 .major ("1", "2") (by decide) [] [] []⟩

end EarTrainer
